import Mathlib

/-!
Shallow embedding of the embedding-acquisition and similarity-ranking
subsystem of the memory server: the in-memory embedding cache, cache key
derivation, retry-with-backoff, the batch coalescer dispatch, and the
similarity engine (semantic search, hybrid search, nearest-neighbour
lookup, greedy clustering).

Numbers are modelled as exact rationals, timestamps as integers.
Cosine similarity is computed by an external library in the source, so
ranking functions are parameterised over the similarity function.
External collaborators (the SQL-backed record store and lexical search)
supply candidate lists; they are parameters of the functions here.
-/

/-- The JS engine's stable sort with comparator `(a, b) => score b - score a`:
descending by score, ties kept in input order.  Insert an element in front of
the first position whose score is not larger. -/
def insertDesc {α : Type} (score : α → ℚ) (x : α) : List α → List α
  | [] => [x]
  | y :: ys => if score y ≤ score x then x :: y :: ys else y :: insertDesc score x ys

/-- Stable descending sort by `score` (insertion sort, earlier elements inserted
last so that ties keep input order). -/
def sortDesc {α : Type} (score : α → ℚ) : List α → List α
  | [] => []
  | x :: xs => insertDesc score x (sortDesc score xs)

/-- A stored memory record (the fields used by the similarity engine). -/
structure Mem where
  id : String
  category : String
  updated_at : Int
deriving DecidableEq, Inhabited

/-- A row of `getMemoriesWithEmbeddings`: a memory together with its stored
vector for the active (provider, model). -/
structure Cand where
  memory : Mem
  embedding : List ℚ
deriving DecidableEq

structure SemanticSearchResult where
  memory : Mem
  similarity : ℚ
  embedding : List ℚ
deriving DecidableEq

structure HybridSearchResult where
  memory : Mem
  similarity : ℚ
  textScore : ℚ
  combinedScore : ℚ
  embedding : List ℚ
deriving DecidableEq

/-- The `if (category) filter` step shared by the search functions: a present
category restricts candidates to records of that category. -/
def categoryFilter (category : Option String) (l : List Cand) : List Cand :=
  match category with
  | none => l
  | some c => l.filter (fun item => item.memory.category == c)

/-- The map step of `searchSimilar` / `findSimilarToMemory`: score every
candidate by similarity to the query vector; the embedding payload is kept
only when requested. -/
def scoreCandidates (sim : List ℚ → List ℚ → ℚ) (queryEmbedding : List ℚ)
    (includeEmbeddings : Bool) (l : List Cand) : List SemanticSearchResult :=
  l.map (fun item =>
    { memory := item.memory
      similarity := sim queryEmbedding item.embedding
      embedding := if includeEmbeddings then item.embedding else [] })

/-- `SemanticSearchService.searchSimilar`, given the query embedding and the
candidate rows supplied by the store: score, drop scores below
`minSimilarity`, stable-sort descending by similarity, truncate to `limit`. -/
def searchSimilar (sim : List ℚ → List ℚ → ℚ) (queryEmbedding : List ℚ)
    (candidates : List Cand) (limit : Nat) (minSimilarity : ℚ)
    (category : Option String) (includeEmbeddings : Bool) : List SemanticSearchResult :=
  (sortDesc (fun r => r.similarity)
      ((scoreCandidates sim queryEmbedding includeEmbeddings
          (categoryFilter category candidates)).filter
        (fun r => decide (minSimilarity ≤ r.similarity)))).take limit

/-- `SemanticSearchService.findSimilarToMemory`: the stored vector lookup for
the source memory is a parameter (`sourceEmbedding`); with no stored vector it
fails, otherwise it ranks all other candidates against the source vector. -/
def findSimilarToMemory (sim : List ℚ → List ℚ → ℚ) (memoryId : String)
    (sourceEmbedding : Option (List ℚ)) (candidates : List Cand) (limit : Nat)
    (minSimilarity : ℚ) (category : Option String) :
    Except String (List SemanticSearchResult) :=
  match sourceEmbedding with
  | none => .error ("No embedding found for memory " ++ memoryId)
  | some src =>
    .ok ((sortDesc (fun r => r.similarity)
        ((scoreCandidates sim src true
            (categoryFilter category
              (candidates.filter (fun item => item.memory.id != memoryId)))).filter
          (fun r => decide (minSimilarity ≤ r.similarity)))).take limit)

/-- Lookup in a JS `Map` built by successive `set` calls: the last binding of a
key wins. -/
def mapGet (m : List (String × ℚ)) (k : String) : Option ℚ :=
  (m.reverse.find? (fun p => p.1 == k)).map (fun p => p.2)

/-- Iteration order of a JS `Set` built from a list: first occurrence of each
element is kept, in insertion order. -/
def setDedup : List String → List String → List String
  | [], _ => []
  | a :: rest, seen => if a ∈ seen then setDedup rest seen else a :: setDedup rest (a :: seen)

/-- The per-id entry built in `hybridSearch`'s map over `allMemoryIds`. -/
def hybridEntry (semanticResults : List SemanticSearchResult) (textResults : List Mem)
    (semMap textMap : List (String × ℚ)) (textWeight semanticWeight : ℚ)
    (boostRecentMemories : Bool) (includeEmbeddings : Bool) (now : Int)
    (memoryId : String) : HybridSearchResult :=
  let semanticResult := semanticResults.find? (fun r => r.memory.id == memoryId)
  let textMemory := textResults.find? (fun r => r.id == memoryId)
  let memory :=
    match semanticResult with
    | some r => r.memory
    | none =>
      match textMemory with
      | some m => m
      | none => default
  let semanticScore := (mapGet semMap memoryId).getD 0
  let textScore := (mapGet textMap memoryId).getD 0
  let combinedScore₀ := semanticScore * semanticWeight + textScore * textWeight
  let combinedScore :=
    if boostRecentMemories then
      let daysSinceUpdate : ℚ := ((now - memory.updated_at : Int) : ℚ) / (1000 * 60 * 60 * 24)
      let recencyBoost : ℚ := max 0 (1 - daysSinceUpdate / 30)
      combinedScore₀ + recencyBoost * (1 / 10)
    else combinedScore₀
  { memory := memory
    similarity := semanticScore
    textScore := textScore
    combinedScore := combinedScore
    embedding :=
      if includeEmbeddings then
        match semanticResult with
        | some r => r.embedding
        | none => []
      else [] }

/-- The normalized lexical rank scores: the candidate at 0-based index `i` of
`N` lexical results scores `max 0 ((N - i) / N)`. -/
def textScoreMap (textResults : List Mem) : List (String × ℚ) :=
  textResults.enum.map (fun p =>
    (p.2.id, max 0 (((textResults.length : ℚ) - (p.1 : ℚ)) / (textResults.length : ℚ))))

/-- `SemanticSearchService.hybridSearch`, given the candidate rows for the
semantic side and the rank-ordered lexical results: run `searchSimilar` with a
doubled pool and a relaxed threshold, blend scores, filter, sort, truncate. -/
def hybridSearch (sim : List ℚ → List ℚ → ℚ) (queryEmbedding : List ℚ)
    (candidates : List Cand) (textResults : List Mem) (limit : Nat)
    (minSimilarity : ℚ) (category : Option String) (textWeight semanticWeight : ℚ)
    (boostRecentMemories : Bool) (includeEmbeddings : Bool) (now : Int) :
    List HybridSearchResult :=
  let semanticResults := searchSimilar sim queryEmbedding candidates (limit * 2)
      (minSimilarity * (4 / 5)) category includeEmbeddings
  let semMap := semanticResults.map (fun r => (r.memory.id, r.similarity))
  let textMap := textScoreMap textResults
  let allMemoryIds := setDedup
      (semanticResults.map (fun r => r.memory.id) ++ textResults.map (fun r => r.id)) []
  (sortDesc (fun r => r.combinedScore)
      ((allMemoryIds.map (hybridEntry semanticResults textResults semMap textMap
          textWeight semanticWeight boostRecentMemories includeEmbeddings now)).filter
        (fun r => decide ((1 / 10 : ℚ) < r.combinedScore)))).take limit

/-- One output cluster of `clusterMemories`. -/
structure ClusterOut where
  cluster : List SemanticSearchResult
  avgSimilarity : ℚ
deriving DecidableEq

/-- The body of the inner scan of `clusterMemories`: skip the seed itself and
already-processed records; a similarity at or above the threshold joins the
cluster and marks the record processed. -/
def clusterScanStep (sim : List ℚ → List ℚ → ℚ) (threshold : ℚ) (item : Cand)
    (acc : List SemanticSearchResult × ℚ × List String) (other : Cand) :
    List SemanticSearchResult × ℚ × List String :=
  if other.memory.id = item.memory.id ∨ other.memory.id ∈ acc.2.2 then acc
  else
    let s := sim item.embedding other.embedding
    if threshold ≤ s then
      (acc.1 ++ [{ memory := other.memory, similarity := s, embedding := other.embedding }],
       acc.2.1 + s, other.memory.id :: acc.2.2)
    else acc

/-- The inner scan of `clusterMemories`: starting from the seed (self-similarity
1.0), fold the step over the whole candidate list. -/
def clusterScan (sim : List ℚ → List ℚ → ℚ) (threshold : ℚ) (item : Cand)
    (mems : List Cand) (processed : List String) :
    List SemanticSearchResult × ℚ × List String :=
  mems.foldl (clusterScanStep sim threshold item)
    ([{ memory := item.memory, similarity := 1, embedding := item.embedding }], 1, processed)

/-- One outer iteration of `clusterMemories`: skip processed seeds, scan,
keep the cluster only when large enough, then mark the seed processed. -/
def clusterStep (sim : List ℚ → List ℚ → ℚ) (threshold : ℚ) (minClusterSize : Nat)
    (mems : List Cand) (acc : List ClusterOut × List String) (item : Cand) :
    List ClusterOut × List String :=
  if item.memory.id ∈ acc.2 then acc
  else
    let scan := clusterScan sim threshold item mems acc.2
    let clusters :=
      if minClusterSize ≤ scan.1.length then
        acc.1 ++ [{ cluster := scan.1, avgSimilarity := scan.2.1 / (scan.1.length : ℚ) }]
      else acc.1
    (clusters, item.memory.id :: scan.2.2)

/-- `SemanticSearchService.clusterMemories`, given the candidate rows: greedy
single-pass clustering, then sort descending by average similarity. -/
def clusterMemories (sim : List ℚ → List ℚ → ℚ) (threshold : ℚ)
    (minClusterSize : Nat) (mems : List Cand) : List ClusterOut :=
  sortDesc (fun c => c.avgSimilarity)
    (mems.foldl (clusterStep sim threshold minClusterSize mems) ([], [])).1

/-- A cache slot: the vector plus its creation timestamp. -/
structure CacheEntry where
  embedding : List ℚ
  timestamp : Int
deriving DecidableEq

/-- `MemoryEmbeddingCache`: a JS `Map` in insertion order with a size bound and
a TTL. -/
structure MemoryEmbeddingCache where
  entries : List (String × CacheEntry)
  maxSize : Nat
  ttl : Int
deriving DecidableEq

/-- Raw `Map.get`: the unique binding of the key (first match; keys are kept
unique by `set`). -/
def cacheLookup (c : MemoryEmbeddingCache) (key : String) : Option CacheEntry :=
  (c.entries.find? (fun p => p.1 == key)).map (fun p => p.2)

/-- `Map.delete key`. -/
def cacheDelete (c : MemoryEmbeddingCache) (key : String) : MemoryEmbeddingCache :=
  { c with entries := c.entries.filter (fun p => p.1 != key) }

/-- `MemoryEmbeddingCache.get`: miss on absence; an entry older than the TTL is
deleted and reported as a miss. -/
def MemoryEmbeddingCache.get (c : MemoryEmbeddingCache) (key : String) (now : Int) :
    Option (List ℚ) × MemoryEmbeddingCache :=
  match cacheLookup c key with
  | none => (none, c)
  | some e =>
    if c.ttl < now - e.timestamp then (none, cacheDelete c key)
    else (some e.embedding, c)

/-- `MemoryEmbeddingCache.set`: at capacity, drop the oldest-inserted entry
(unless its key is the empty string, which the source's falsiness test skips),
then bind the key, keeping its original position if it is already present. -/
def MemoryEmbeddingCache.set (c : MemoryEmbeddingCache) (key : String)
    (embedding : List ℚ) (now : Int) : MemoryEmbeddingCache :=
  let c₁ :=
    if c.maxSize ≤ c.entries.length then
      match c.entries.head? with
      | some p => if p.1 = "" then c else cacheDelete c p.1
      | none => c
    else c
  if c₁.entries.any (fun p => p.1 == key) then
    { c₁ with entries :=
        c₁.entries.map (fun p => if p.1 == key then (key, ⟨embedding, now⟩) else p) }
  else
    { c₁ with entries := c₁.entries ++ [(key, ⟨embedding, now⟩)] }

/-- `BaseEmbeddingProvider.getCacheKey`: provider, model (falling back to
"default" when falsy) and text joined by colons. -/
def getCacheKey (provider model text : String) : String :=
  provider ++ ":" ++ (if model = "" then "default" else model) ++ ":" ++ text

/-- `OllamaEmbeddingProvider.generateBatchEmbeddingsInternal`, given the raw
response of the provider call (`none` models a response with no embeddings
field): any count mismatch is an integrity error, otherwise the response is
returned verbatim. -/
def generateBatchEmbeddingsInternal (texts : List String)
    (response : Option (List (List ℚ))) : Except String (List (List ℚ)) :=
  match response with
  | none => .error ("Expected " ++ toString texts.length ++ " embeddings, got 0")
  | some embeddings =>
    if embeddings.length ≠ texts.length then
      .error ("Expected " ++ toString texts.length ++ " embeddings, got "
        ++ toString embeddings.length)
    else .ok embeddings

/-- A queued single-text request awaiting batch dispatch (its completion handle
is represented by its position: outcome `i` of a dispatch answers request `i`
of the dispatched batch). -/
structure PendingRequest where
  text : String
deriving DecidableEq

/-- `OllamaEmbeddingProvider.processBatch`, as the pure dispatch on the queue
state at splice time.  `attempts n` is the raw provider response to the n-th
call the dispatch would issue; the source issues exactly one (`attempts 1`).
Returns the remaining queue, one outcome per spliced request, and the cache. -/
def processBatch (provider model : String) (queue : List PendingRequest)
    (batchSize : Nat) (attempts : Nat → Option (List (List ℚ)))
    (cache : MemoryEmbeddingCache) (now : Int) :
    List PendingRequest × List (Except String (List ℚ)) × MemoryEmbeddingCache :=
  if queue = [] then (queue, [], cache)
  else
    let currentBatch := queue.take batchSize
    let remaining := queue.drop batchSize
    let texts := currentBatch.map (fun item => item.text)
    match generateBatchEmbeddingsInternal texts (attempts 1) with
    | .ok embeddings =>
      (remaining,
       embeddings.map (fun e => .ok e),
       (currentBatch.zip embeddings).foldl
         (fun c pe => c.set (getCacheKey provider model pe.1.text) pe.2 now) cache)
    | .error e =>
      (remaining, currentBatch.map (fun _ => .error e), cache)

/-- `RetryResult`: a retried operation either succeeds, exhausts its attempts
(throwing the wrapping error), or — when the loop never ran — crashes on the
dereference of the never-assigned `lastError`. -/
inductive RetryResult (V : Type) where
  | ok (value : V)
  | exhausted (message : String)
  | crash
deriving DecidableEq

/-- The attempt loop of `BaseEmbeddingProvider.retryWithBackoff`.  `op n` is
the outcome of the n-th invocation of the wrapped operation; `fuel` is the
number of loop iterations left; the second component counts invocations. -/
def retryGo {V : Type} (op : Nat → Except String V) (maxRetries : Int) :
    Nat → Nat → Option String → RetryResult V × Nat
  | _attempt, 0, lastError =>
    (match lastError with
     | some m =>
       .exhausted ("Operation failed after " ++ toString maxRetries ++ " attempts: " ++ m)
     | none => .crash, 0)
  | attempt, fuel + 1, _lastError =>
    match op attempt with
    | .ok v => (.ok v, 1)
    | .error m =>
      let r := retryGo op maxRetries (attempt + 1) fuel (some m)
      (r.1, r.2 + 1)

/-- `BaseEmbeddingProvider.retryWithBackoff`: run the attempt loop for
`maxRetries` iterations (none when `maxRetries ≤ 0`, since the loop counter
starts at 1). -/
def retryWithBackoff {V : Type} (op : Nat → Except String V) (maxRetries : Int) :
    RetryResult V × Nat :=
  retryGo op maxRetries 1 maxRetries.toNat none

/-- Modelled from the spec: the coalescer dispatch as §4.4 describes it, with
the batch call wrapped in the RetryPolicy (`maxRetries` attempts).  The
source's `processBatch` contains no such wrapping; this definition renders the
spec's words so the two can be compared. -/
def processBatchRetried (provider model : String) (queue : List PendingRequest)
    (batchSize : Nat) (maxRetries : Int) (attempts : Nat → Option (List (List ℚ)))
    (cache : MemoryEmbeddingCache) (now : Int) :
    List PendingRequest × List (Except String (List ℚ)) × MemoryEmbeddingCache :=
  if queue = [] then (queue, [], cache)
  else
    let currentBatch := queue.take batchSize
    let remaining := queue.drop batchSize
    let texts := currentBatch.map (fun item => item.text)
    match (retryWithBackoff
        (fun n => generateBatchEmbeddingsInternal texts (attempts n)) maxRetries).1 with
    | .ok embeddings =>
      (remaining,
       embeddings.map (fun e => .ok e),
       (currentBatch.zip embeddings).foldl
         (fun c pe => c.set (getCacheKey provider model pe.1.text) pe.2 now) cache)
    | .exhausted m =>
      (remaining, currentBatch.map (fun _ => .error m), cache)
    | .crash =>
      (remaining, currentBatch.map (fun _ => .error "TypeError"), cache)

instance {ε α : Type} [DecidableEq ε] [DecidableEq α] : DecidableEq (Except ε α) :=
  fun a b =>
    match a, b with
    | .ok x, .ok y =>
      if h : x = y then .isTrue (by rw [h])
      else .isFalse (by intro hh; cases hh; exact h rfl)
    | .ok _, .error _ => .isFalse (by intro h; cases h)
    | .error _, .ok _ => .isFalse (by intro h; cases h)
    | .error x, .error y =>
      if h : x = y then .isTrue (by rw [h])
      else .isFalse (by intro hh; cases hh; exact h rfl)

/-- The record ids of a cluster's members. -/
def clusterIds (c : ClusterOut) : List String := c.cluster.map (fun r => r.memory.id)

/-- The sum of the similarity values recorded on a cluster's members. -/
def sumSims (l : List SemanticSearchResult) : ℚ := (l.map (fun r => r.similarity)).sum

theorem insertDesc_perm {α : Type} (score : α → ℚ) (x : α) (l : List α) :
    List.Perm (insertDesc score x l) (x :: l) := by
  induction l with
  | nil => simp [insertDesc]
  | cons y ys ih =>
    by_cases h : score y ≤ score x
    · simp [insertDesc, h]
    · simp only [insertDesc, if_neg h]
      exact ((ih.cons y).trans (List.Perm.swap x y ys))

theorem sortDesc_perm {α : Type} (score : α → ℚ) (l : List α) :
    List.Perm (sortDesc score l) l := by
  induction l with
  | nil => simp [sortDesc]
  | cons x xs ih =>
    exact (insertDesc_perm score x (sortDesc score xs)).trans (ih.cons x)

theorem mem_sortDesc {α : Type} {score : α → ℚ} {l : List α} {a : α} :
    a ∈ sortDesc score l ↔ a ∈ l :=
  (sortDesc_perm score l).mem_iff

theorem insertDesc_sorted {α : Type} (score : α → ℚ) (x : α) {l : List α}
    (h : l.Pairwise (fun a b => score b ≤ score a)) :
    (insertDesc score x l).Pairwise (fun a b => score b ≤ score a) := by
  induction l with
  | nil => simp [insertDesc]
  | cons y ys ih =>
    rcases List.pairwise_cons.mp h with ⟨hy, hys⟩
    by_cases hxy : score y ≤ score x
    · simp only [insertDesc, if_pos hxy]
      refine List.pairwise_cons.mpr ⟨?_, h⟩
      intro b hb
      rcases List.mem_cons.mp hb with hb | hb
      · subst hb; exact hxy
      · exact le_trans (hy b hb) hxy
    · simp only [insertDesc, if_neg hxy]
      refine List.pairwise_cons.mpr ⟨?_, ih hys⟩
      intro b hb
      rcases List.mem_cons.mp (((insertDesc_perm score x ys).mem_iff).mp hb) with hb | hb
      · subst hb; exact le_of_not_le hxy
      · exact hy b hb

theorem sortDesc_sorted {α : Type} (score : α → ℚ) (l : List α) :
    (sortDesc score l).Pairwise (fun a b => score b ≤ score a) := by
  induction l with
  | nil => simp [sortDesc]
  | cons x xs ih => exact insertDesc_sorted score x ih

/-- Stability of the insertion step: the sublist of elements at any fixed score
level is unchanged, with the new element (which is earlier in the input) placed
first at its level. -/
theorem insertDesc_filter_level {α : Type} (score : α → ℚ) (x : α) (l : List α) (c : ℚ) :
    (insertDesc score x l).filter (fun a => decide (score a = c))
      = (x :: l).filter (fun a => decide (score a = c)) := by
  induction l with
  | nil => simp [insertDesc]
  | cons y ys ih =>
    by_cases hxy : score y ≤ score x
    · simp [insertDesc, hxy]
    · have hlt : score x < score y := lt_of_not_le hxy
      simp only [insertDesc, if_neg hxy, List.filter_cons, ih]
      by_cases hyc : score y = c
      · have hxc : ¬ score x = c := by
          intro hx; rw [hx, hyc] at hlt; exact absurd hlt (lt_irrefl c)
        simp [hyc, hxc, List.filter_cons]
      · simp [hyc, List.filter_cons]

/-- Stability of the sort: at each score level the elements appear in input
order. -/
theorem sortDesc_filter_level {α : Type} (score : α → ℚ) (l : List α) (c : ℚ) :
    (sortDesc score l).filter (fun a => decide (score a = c))
      = l.filter (fun a => decide (score a = c)) := by
  induction l with
  | nil => simp [sortDesc]
  | cons x xs ih =>
    rw [sortDesc, insertDesc_filter_level, List.filter_cons, List.filter_cons, ih]

/-- C2: `generateBatchEmbeddingsInternal` succeeds exactly when the response
carries one vector per input text, returning the response verbatim (never
truncated or padded); a missing or miscounted response fails with the
integrity error. -/
theorem generateBatchEmbeddingsInternal_length (texts : List String)
    (response : Option (List (List ℚ))) :
    (∀ embeddings, generateBatchEmbeddingsInternal texts response = Except.ok embeddings ↔
        (response = some embeddings ∧ embeddings.length = texts.length)) ∧
    (∀ embeddings, response = some embeddings → embeddings.length ≠ texts.length →
        generateBatchEmbeddingsInternal texts response =
          Except.error ("Expected " ++ toString texts.length ++ " embeddings, got "
            ++ toString embeddings.length)) ∧
    (response = none →
        generateBatchEmbeddingsInternal texts response =
          Except.error ("Expected " ++ toString texts.length ++ " embeddings, got 0")) := by
  refine ⟨?_, ?_, ?_⟩
  · intro embeddings
    cases response with
    | none => simp [generateBatchEmbeddingsInternal]
    | some embs =>
      by_cases h : embs.length = texts.length
      · simp only [generateBatchEmbeddingsInternal, if_neg (not_not_intro h)]
        constructor
        · intro he
          cases he
          exact ⟨rfl, h⟩
        · rintro ⟨he, _⟩
          cases he
          rfl
      · simp only [generateBatchEmbeddingsInternal, if_pos h]
        constructor
        · intro he; cases he
        · rintro ⟨he, hlen⟩
          cases he
          exact absurd hlen h
  · intro embeddings hr hlen
    subst hr
    simp [generateBatchEmbeddingsInternal, hlen]
  · intro hr
    subst hr
    simp [generateBatchEmbeddingsInternal]

/-- Witness for C2 at concrete inputs: two texts with two vectors succeed
verbatim; two texts with one vector, or a missing response, fail. -/
theorem generateBatchEmbeddingsInternal_length_witness :
    generateBatchEmbeddingsInternal ["a", "b"] (some [[1], [2]]) = Except.ok [[1], [2]] ∧
    generateBatchEmbeddingsInternal ["a", "b"] (some [[1]]) =
      Except.error ("Expected " ++ toString (["a", "b"] : List String).length
        ++ " embeddings, got " ++ toString ([[1]] : List (List ℚ)).length) ∧
    generateBatchEmbeddingsInternal ["a"] none =
      Except.error ("Expected " ++ toString (["a"] : List String).length
        ++ " embeddings, got 0") :=
  ⟨((generateBatchEmbeddingsInternal_length ["a", "b"] (some [[1], [2]])).1 [[1], [2]]).mpr
      ⟨rfl, by decide⟩,
   (generateBatchEmbeddingsInternal_length ["a", "b"] (some [[1]])).2.1 [[1]] rfl (by decide),
   (generateBatchEmbeddingsInternal_length ["a"] none).2.2 rfl⟩

/-- C7: `MemoryEmbeddingCache.get` misses exactly when the key is absent or
the entry's age exceeds the TTL; a vector is returned only from an entry whose
age is within the TTL. -/
theorem cache_get_ttl (c : MemoryEmbeddingCache) (key : String) (now : Int) :
    ((c.get key now).1 = none ↔
      cacheLookup c key = none ∨
        ∃ e, cacheLookup c key = some e ∧ c.ttl < now - e.timestamp) ∧
    (∀ v, (c.get key now).1 = some v →
      ∃ e, cacheLookup c key = some e ∧ v = e.embedding ∧ now - e.timestamp ≤ c.ttl) := by
  constructor
  · cases hl : cacheLookup c key with
    | none => simp [MemoryEmbeddingCache.get, hl]
    | some e =>
      by_cases ht : c.ttl < now - e.timestamp
      · simp [MemoryEmbeddingCache.get, hl, ht]
      · simp [MemoryEmbeddingCache.get, hl, ht]
  · intro v hv
    cases hl : cacheLookup c key with
    | none => simp [MemoryEmbeddingCache.get, hl] at hv
    | some e =>
      by_cases ht : c.ttl < now - e.timestamp
      · simp [MemoryEmbeddingCache.get, hl, ht] at hv
      · simp only [MemoryEmbeddingCache.get, hl, if_neg ht] at hv
        exact ⟨e, rfl, (Option.some.injEq _ _ ▸ hv).symm, le_of_not_lt ht⟩

/-- Witness for C7: a fresh entry is returned; an expired entry is reported as
a miss via the characterization. -/
theorem cache_get_ttl_witness :
    (∃ e, cacheLookup ⟨[("k", ⟨[1], 0⟩)], 1000, 3600000⟩ "k" = some e ∧
      [(1 : ℚ)] = e.embedding ∧ (100 : Int) - e.timestamp ≤ 3600000) ∧
    ((⟨[("k", ⟨[1], 0⟩)], 1000, 3600000⟩ : MemoryEmbeddingCache).get "k" 9999999 ).1 = none :=
  ⟨(cache_get_ttl ⟨[("k", ⟨[1], 0⟩)], 1000, 3600000⟩ "k" 100).2 [1] (by decide),
   (cache_get_ttl ⟨[("k", ⟨[1], 0⟩)], 1000, 3600000⟩ "k" 9999999).1.mpr
     (Or.inr ⟨⟨[1], 0⟩, by decide, by decide⟩)⟩

/-- C8 counterexample: two distinct (provider, model) pairs whose derived cache
keys coincide on the same text, because the colon-joined key does not escape
colons inside the provider or model name. -/
theorem getCacheKey_collision :
    getCacheKey "x:y" "z" "t" = getCacheKey "x" "y:z" "t" ∧
    ("x:y", "z") ≠ (("x", "y:z") : String × String) := by
  constructor
  · rfl
  · decide

/-- Splitting a character list at an unambiguous separator. -/
theorem colon_split {p₁ p₂ r₁ r₂ : List Char} (h₁ : ':' ∉ p₁) (h₂ : ':' ∉ p₂)
    (h : p₁ ++ ':' :: r₁ = p₂ ++ ':' :: r₂) : p₁ = p₂ ∧ r₁ = r₂ := by
  induction p₁ generalizing p₂ with
  | nil =>
    cases p₂ with
    | nil =>
      simp only [List.nil_append, List.cons.injEq] at h
      exact ⟨rfl, h.2⟩
    | cons b bs =>
      simp only [List.nil_append, List.cons_append, List.cons.injEq] at h
      exact absurd (h.1 ▸ List.mem_cons_self b bs) h₂
  | cons a as ih =>
    cases p₂ with
    | nil =>
      simp only [List.cons_append, List.nil_append, List.cons.injEq] at h
      exact absurd (h.1 ▸ List.mem_cons_self a as) h₁
    | cons b bs =>
      simp only [List.cons_append, List.cons.injEq] at h
      obtain ⟨hab, ht⟩ := h
      obtain ⟨hp, hr⟩ := ih (fun hm => h₁ (List.mem_cons_of_mem a hm))
        (fun hm => h₂ (List.mem_cons_of_mem b hm)) ht
      subst hab
      exact ⟨by rw [hp], hr⟩

/-- C8 amended: when neither provider nor model contains the colon separator
and the model is non-empty, distinct (provider, model) pairs never produce
colliding cache keys, for any texts. -/
theorem getCacheKey_no_collision (p₁ m₁ t₁ p₂ m₂ t₂ : String)
    (hp₁ : ':' ∉ p₁.data) (hp₂ : ':' ∉ p₂.data)
    (hm₁ : ':' ∉ m₁.data) (hm₂ : ':' ∉ m₂.data)
    (hm₁e : m₁ ≠ "") (hm₂e : m₂ ≠ "")
    (hne : (p₁, m₁) ≠ (p₂, m₂)) :
    getCacheKey p₁ m₁ t₁ ≠ getCacheKey p₂ m₂ t₂ := by
  intro h
  apply hne
  unfold getCacheKey at h
  rw [if_neg hm₁e, if_neg hm₂e] at h
  have hd : p₁.data ++ ':' :: (m₁.data ++ ':' :: t₁.data)
      = p₂.data ++ ':' :: (m₂.data ++ ':' :: t₂.data) := by
    have h' := congrArg String.data h
    simp only [String.data_append] at h'
    simpa [List.append_assoc] using h'
  obtain ⟨hp, hrest⟩ := colon_split hp₁ hp₂ hd
  obtain ⟨hm, _⟩ := colon_split hm₁ hm₂ hrest
  have hps : p₁ = p₂ := by
    cases p₁; cases p₂; exact congrArg String.mk hp
  have hms : m₁ = m₂ := by
    cases m₁; cases m₂; exact congrArg String.mk hm
  rw [hps, hms]

/-- Witness for the amended C8 at concrete colon-free inputs. -/
theorem getCacheKey_no_collision_witness :
    getCacheKey "ollama" "m1" "t" ≠ getCacheKey "ollama" "m2" "t" :=
  getCacheKey_no_collision "ollama" "m1" "t" "ollama" "m2" "t"
    (by decide) (by decide) (by decide) (by decide) (by decide) (by decide) (by decide)

/-- C3: `searchSimilar` returns only candidates at or above `minSimilarity`,
in non-increasing similarity order, with each similarity level a prefix of
that level's candidates in supplied order (stability), and at most `limit`
results. -/
theorem searchSimilar_ranking (sim : List ℚ → List ℚ → ℚ) (queryEmbedding : List ℚ)
    (candidates : List Cand) (limit : Nat) (minSimilarity : ℚ)
    (category : Option String) (includeEmbeddings : Bool) :
    (∀ r ∈ searchSimilar sim queryEmbedding candidates limit minSimilarity category
        includeEmbeddings, minSimilarity ≤ r.similarity) ∧
    (searchSimilar sim queryEmbedding candidates limit minSimilarity category
        includeEmbeddings).Pairwise (fun a b => b.similarity ≤ a.similarity) ∧
    (∀ c : ℚ, ∃ rest,
      (searchSimilar sim queryEmbedding candidates limit minSimilarity category
          includeEmbeddings).filter (fun r => decide (r.similarity = c)) ++ rest =
        ((scoreCandidates sim queryEmbedding includeEmbeddings
            (categoryFilter category candidates)).filter
          (fun r => decide (minSimilarity ≤ r.similarity))).filter
            (fun r => decide (r.similarity = c))) ∧
    (searchSimilar sim queryEmbedding candidates limit minSimilarity category
        includeEmbeddings).length ≤ limit := by
  refine ⟨?_, ?_, ?_, ?_⟩
  · intro r hr
    have hr₁ : r ∈ sortDesc (fun r => r.similarity)
        ((scoreCandidates sim queryEmbedding includeEmbeddings
            (categoryFilter category candidates)).filter
          (fun r => decide (minSimilarity ≤ r.similarity))) :=
      List.take_subset _ _ hr
    have hr₂ := mem_sortDesc.mp hr₁
    exact of_decide_eq_true (List.mem_filter.mp hr₂).2
  · exact List.Pairwise.sublist (List.take_sublist _ _) (sortDesc_sorted _ _)
  · intro c
    refine ⟨((sortDesc (fun r => r.similarity)
        ((scoreCandidates sim queryEmbedding includeEmbeddings
            (categoryFilter category candidates)).filter
          (fun r => decide (minSimilarity ≤ r.similarity)))).drop limit).filter
            (fun r => decide (r.similarity = c)), ?_⟩
    rw [searchSimilar, ← List.filter_append, List.take_append_drop, sortDesc_filter_level]
  · exact List.length_take_le _ _

/-- C9: with no stored vector for the source memory, `findSimilarToMemory`
fails with the not-found error; with a stored vector it is exactly
`searchSimilar` ranked against that vector over the candidates minus the
source record, and the source record never appears in its results. -/
theorem findSimilarToMemory_spec (sim : List ℚ → List ℚ → ℚ) (memoryId : String)
    (sourceEmbedding : Option (List ℚ)) (candidates : List Cand) (limit : Nat)
    (minSimilarity : ℚ) (category : Option String) :
    (sourceEmbedding = none →
      findSimilarToMemory sim memoryId sourceEmbedding candidates limit minSimilarity
          category = Except.error ("No embedding found for memory " ++ memoryId)) ∧
    (∀ src, sourceEmbedding = some src →
      findSimilarToMemory sim memoryId sourceEmbedding candidates limit minSimilarity
          category =
        Except.ok (searchSimilar sim src
          (candidates.filter (fun item => item.memory.id != memoryId))
          limit minSimilarity category true)) ∧
    (∀ results, findSimilarToMemory sim memoryId sourceEmbedding candidates limit
        minSimilarity category = Except.ok results →
      ∀ r ∈ results, r.memory.id ≠ memoryId) := by
  refine ⟨?_, ?_, ?_⟩
  · intro h
    subst h
    rfl
  · intro src h
    subst h
    rfl
  · intro results hres r hr
    cases sourceEmbedding with
    | none => cases hres
    | some src =>
      simp only [findSimilarToMemory, Except.ok.injEq] at hres
      subst hres
      have hr₁ : r ∈ sortDesc (fun r => r.similarity)
          ((scoreCandidates sim src true
              (categoryFilter category
                (candidates.filter (fun item => item.memory.id != memoryId)))).filter
            (fun r => decide (minSimilarity ≤ r.similarity))) :=
        List.take_subset _ _ hr
      have hr₂ := List.mem_of_mem_filter (mem_sortDesc.mp hr₁)
      rcases List.mem_map.mp hr₂ with ⟨item, hitem, hre⟩
      have hitem' : item ∈ candidates.filter (fun item => item.memory.id != memoryId) := by
        cases category with
        | none => exact hitem
        | some cgy => exact List.mem_of_mem_filter hitem
      have hid : (item.memory.id != memoryId) = true := (List.mem_filter.mp hitem').2
      have : r.memory = item.memory := by rw [← hre]
      rw [this]
      exact ne_of_beq_false (Bool.not_eq_true' .. ▸ hid)

/-- Witness for C9 at concrete inputs: a missing stored vector errors; a
present one reduces to `searchSimilar` with the source excluded, whose results
never contain the source id. -/
theorem findSimilarToMemory_spec_witness :
    (findSimilarToMemory (fun a b => if a = b then (1 : ℚ) else 0) "src" none
        [⟨⟨"src", "c", 0⟩, [1]⟩, ⟨⟨"other", "c", 0⟩, [1]⟩] 5 (7 / 10) none =
      Except.error ("No embedding found for memory " ++ "src")) ∧
    (findSimilarToMemory (fun a b => if a = b then (1 : ℚ) else 0) "src" (some [1])
        [⟨⟨"src", "c", 0⟩, [1]⟩, ⟨⟨"other", "c", 0⟩, [1]⟩] 5 (7 / 10) none =
      Except.ok (searchSimilar (fun a b => if a = b then (1 : ℚ) else 0) [1]
        (([⟨⟨"src", "c", 0⟩, [1]⟩, ⟨⟨"other", "c", 0⟩, [1]⟩] : List Cand).filter
          (fun item => item.memory.id != "src")) 5 (7 / 10) none true)) ∧
    (∀ r ∈ searchSimilar (fun a b => if a = b then (1 : ℚ) else 0) [1]
        (([⟨⟨"src", "c", 0⟩, [1]⟩, ⟨⟨"other", "c", 0⟩, [1]⟩] : List Cand).filter
          (fun item => item.memory.id != "src")) 5 (7 / 10) none true,
      r.memory.id ≠ "src") :=
  ⟨(findSimilarToMemory_spec (fun a b => if a = b then (1 : ℚ) else 0) "src" none
      [⟨⟨"src", "c", 0⟩, [1]⟩, ⟨⟨"other", "c", 0⟩, [1]⟩] 5 (7 / 10) none).1 rfl,
   (findSimilarToMemory_spec (fun a b => if a = b then (1 : ℚ) else 0) "src" (some [1])
      [⟨⟨"src", "c", 0⟩, [1]⟩, ⟨⟨"other", "c", 0⟩, [1]⟩] 5 (7 / 10) none).2.1 [1] rfl,
   (findSimilarToMemory_spec (fun a b => if a = b then (1 : ℚ) else 0) "src" (some [1])
      [⟨⟨"src", "c", 0⟩, [1]⟩, ⟨⟨"other", "c", 0⟩, [1]⟩] 5 (7 / 10) none).2.2 _
     ((findSimilarToMemory_spec (fun a b => if a = b then (1 : ℚ) else 0) "src" (some [1])
        [⟨⟨"src", "c", 0⟩, [1]⟩, ⟨⟨"other", "c", 0⟩, [1]⟩] 5 (7 / 10) none).2.1 [1] rfl)⟩

/-- The attempt loop never reaches the undefined-dereference branch once an
error has been recorded. -/
theorem retryGo_ne_crash {V : Type} (op : Nat → Except String V) (maxRetries : Int) :
    ∀ (fuel attempt : Nat) (m : String),
      (retryGo op maxRetries attempt fuel (some m)).1 ≠ RetryResult.crash := by
  intro fuel
  induction fuel with
  | zero => intro attempt m; simp [retryGo]
  | succ f ih =>
    intro attempt m
    simp only [retryGo]
    cases h : op attempt with
    | ok v => simp
    | error e => simpa using ih (attempt + 1) e

/-- When every attempt fails, the loop runs through its whole fuel and throws
the wrapping error around the last attempt's message. -/
theorem retryGo_all_error {V : Type} (op : Nat → Except String V) (maxRetries : Int)
    (msg : Nat → String) (hop : ∀ i, op i = Except.error (msg i)) :
    ∀ (f attempt : Nat) (last : Option String),
      retryGo op maxRetries attempt (f + 1) last =
        (RetryResult.exhausted ("Operation failed after " ++ toString maxRetries
            ++ " attempts: " ++ msg (attempt + f)), f + 1) := by
  intro f
  induction f with
  | zero => intro attempt last; simp [retryGo, hop attempt]
  | succ f ih =>
    intro attempt last
    have hred : retryGo op maxRetries attempt (f + 1 + 1) last =
        ((retryGo op maxRetries (attempt + 1) (f + 1) (some (msg attempt))).1,
         (retryGo op maxRetries (attempt + 1) (f + 1) (some (msg attempt))).2 + 1) := by
      have h := hop attempt
      cases hc : op attempt with
      | ok v => rw [hc] at h; cases h
      | error e =>
        rw [hc] at h
        injection h with he
        subst he
        simp only [retryGo, hc]
    rw [hred, ih (attempt + 1)]
    have harith : attempt + 1 + f = attempt + (f + 1) := by omega
    rw [harith]

/-- C10: with `maxRetries ≥ 1` the wrapped operation is invoked at least once
and the failure path is the documented wrapped exhaustion error around the
last attempt's message; with `maxRetries ≤ 0` the attempt loop never runs and
the failure path dereferences the never-assigned last error. -/
theorem retryWithBackoff_guard {V : Type} (op : Nat → Except String V) (maxRetries : Int) :
    (1 ≤ maxRetries →
      1 ≤ (retryWithBackoff op maxRetries).2 ∧
      (retryWithBackoff op maxRetries).1 ≠ RetryResult.crash) ∧
    (maxRetries ≤ 0 → retryWithBackoff op maxRetries = (RetryResult.crash, 0)) ∧
    (∀ msg : Nat → String, (∀ i, op i = Except.error (msg i)) → 1 ≤ maxRetries →
      retryWithBackoff op maxRetries =
        (RetryResult.exhausted ("Operation failed after " ++ toString maxRetries
            ++ " attempts: " ++ msg maxRetries.toNat), maxRetries.toNat)) := by
  refine ⟨?_, ?_, ?_⟩
  · intro h1
    have htn : 1 ≤ maxRetries.toNat := by omega
    cases hn : maxRetries.toNat with
    | zero => omega
    | succ f =>
      unfold retryWithBackoff
      rw [hn]
      simp only [retryGo]
      cases h : op 1 with
      | ok v => simp
      | error e =>
        constructor
        · simp
        · simpa using retryGo_ne_crash op maxRetries f 2 e
  · intro h0
    unfold retryWithBackoff
    rw [Int.toNat_of_nonpos h0]
    simp [retryGo]
  · intro msg hop h1
    have htn : 1 ≤ maxRetries.toNat := by omega
    cases hn : maxRetries.toNat with
    | zero => omega
    | succ f =>
      unfold retryWithBackoff
      rw [hn, retryGo_all_error op maxRetries msg hop f 1 none]
      have : 1 + f = f + 1 := Nat.add_comm 1 f
      rw [this]

/-- Witness for C10: two failing attempts with `maxRetries = 2` exhaust with
the wrapped message after two invocations; `maxRetries = 0` crashes with zero
invocations. -/
theorem retryWithBackoff_guard_witness :
    (1 ≤ (retryWithBackoff (fun _ => (Except.error "e" : Except String (List ℚ))) 2).2 ∧
      (retryWithBackoff (fun _ => (Except.error "e" : Except String (List ℚ))) 2).1 ≠
        RetryResult.crash) ∧
    retryWithBackoff (fun _ => (Except.error "e" : Except String (List ℚ))) 0 =
      (RetryResult.crash, 0) ∧
    retryWithBackoff (fun _ => (Except.error "e" : Except String (List ℚ))) 2 =
      (RetryResult.exhausted ("Operation failed after " ++ toString (2 : Int)
          ++ " attempts: " ++ "e"), (2 : Int).toNat) :=
  ⟨(retryWithBackoff_guard (fun _ => (Except.error "e" : Except String (List ℚ))) 2).1
      (by decide),
   (retryWithBackoff_guard (fun _ => (Except.error "e" : Except String (List ℚ))) 0).2.1
      (by decide),
   (retryWithBackoff_guard (fun _ => (Except.error "e" : Except String (List ℚ))) 2).2.2
      (fun _ => "e") (fun _ => rfl) (by decide)⟩

/-- A successful internal batch call returns exactly one vector per text. -/
theorem internal_ok_length {texts : List String} {response : Option (List (List ℚ))}
    {embs : List (List ℚ)}
    (h : generateBatchEmbeddingsInternal texts response = Except.ok embs) :
    embs.length = texts.length := by
  cases response with
  | none => simp [generateBatchEmbeddingsInternal] at h
  | some l =>
    by_cases hl : l.length = texts.length
    · simp only [generateBatchEmbeddingsInternal, if_neg (not_not_intro hl)] at h
      cases h
      exact hl
    · simp [generateBatchEmbeddingsInternal, hl] at h

/-- The dispatch of `processBatch` on a non-empty queue, as one case split on
the single provider call it issues. -/
theorem processBatch_eq (provider model : String) (queue : List PendingRequest)
    (batchSize : Nat) (attempts : Nat → Option (List (List ℚ)))
    (cache : MemoryEmbeddingCache) (now : Int) (hq : queue ≠ []) :
    processBatch provider model queue batchSize attempts cache now =
      match generateBatchEmbeddingsInternal
          ((queue.take batchSize).map (fun i => i.text)) (attempts 1) with
      | .ok embeddings =>
        (queue.drop batchSize, embeddings.map (fun e => .ok e),
         ((queue.take batchSize).zip embeddings).foldl
           (fun c pe => c.set (getCacheKey provider model pe.1.text) pe.2 now) cache)
      | .error e =>
        (queue.drop batchSize, (queue.take batchSize).map (fun _ => .error e), cache) := by
  simp only [processBatch, if_neg hq]

/-- C1: a dispatch removes up to `batchSize` requests from the head of the
queue; on a successful provider call the i-th removed request is resolved with
the i-th returned vector, each of which is written into the cache; on a failed
call every removed request is rejected with the same error and none is
resolved. -/
theorem processBatch_dispatch (provider model : String) (queue : List PendingRequest)
    (batchSize : Nat) (attempts : Nat → Option (List (List ℚ)))
    (cache : MemoryEmbeddingCache) (now : Int) (hq : queue ≠ []) :
    (processBatch provider model queue batchSize attempts cache now).1 =
      queue.drop batchSize ∧
    (queue.take batchSize).length ≤ batchSize ∧
    (∀ embeddings,
      generateBatchEmbeddingsInternal ((queue.take batchSize).map (fun i => i.text))
          (attempts 1) = Except.ok embeddings →
      embeddings.length = (queue.take batchSize).length ∧
      (processBatch provider model queue batchSize attempts cache now).2.1 =
        embeddings.map (fun e => Except.ok e) ∧
      (∀ (i : Nat) (v : List ℚ), embeddings[i]? = some v →
        ((processBatch provider model queue batchSize attempts cache now).2.1)[i]? =
          some (Except.ok v)) ∧
      (processBatch provider model queue batchSize attempts cache now).2.2 =
        ((queue.take batchSize).zip embeddings).foldl
          (fun c pe => c.set (getCacheKey provider model pe.1.text) pe.2 now) cache) ∧
    (∀ e,
      generateBatchEmbeddingsInternal ((queue.take batchSize).map (fun i => i.text))
          (attempts 1) = Except.error e →
      (processBatch provider model queue batchSize attempts cache now).2.1 =
        (queue.take batchSize).map (fun _ => Except.error e) ∧
      (∀ r ∈ (processBatch provider model queue batchSize attempts cache now).2.1,
        ¬ ∃ v, r = Except.ok v) ∧
      (processBatch provider model queue batchSize attempts cache now).2.2 = cache) := by
  rw [processBatch_eq provider model queue batchSize attempts cache now hq]
  refine ⟨?_, ?_, ?_, ?_⟩
  · cases hres : generateBatchEmbeddingsInternal
        ((queue.take batchSize).map (fun i => i.text)) (attempts 1) with
    | ok embs => rfl
    | error e => rfl
  · rw [List.length_take]
    exact min_le_left _ _
  · intro embeddings hres
    rw [hres]
    refine ⟨?_, rfl, ?_, rfl⟩
    · rw [internal_ok_length hres, List.length_map]
    · intro i v hv
      simp [List.getElem?_map, hv]
  · intro e hres
    rw [hres]
    refine ⟨rfl, ?_, rfl⟩
    intro r hr
    rcases List.mem_map.mp hr with ⟨_, _, hre⟩
    rintro ⟨v, rfl⟩
    cases hre

/-- Witness for C1: a two-request dispatch resolves positionally on success
and rejects both requests with the same error on failure. -/
theorem processBatch_dispatch_witness :
    ((processBatch "p" "m" [⟨"a"⟩, ⟨"b"⟩] 32 (fun _ => some [[1], [2]])
        ⟨[], 1000, 3600000⟩ 0).2.1 =
      ([[1], [2]] : List (List ℚ)).map (fun e => Except.ok e)) ∧
    ((processBatch "p" "m" [⟨"a"⟩, ⟨"b"⟩] 32 (fun _ => none)
        ⟨[], 1000, 3600000⟩ 0).2.1 =
      (([⟨"a"⟩, ⟨"b"⟩] : List PendingRequest).take 32).map
        (fun _ => Except.error "Expected 2 embeddings, got 0")) :=
  ⟨((processBatch_dispatch "p" "m" [⟨"a"⟩, ⟨"b"⟩] 32 (fun _ => some [[1], [2]])
      ⟨[], 1000, 3600000⟩ 0 (by decide)).2.2.1 [[1], [2]] (by decide)).2.1,
   ((processBatch_dispatch "p" "m" [⟨"a"⟩, ⟨"b"⟩] 32 (fun _ => none)
      ⟨[], 1000, 3600000⟩ 0 (by decide)).2.2.2 "Expected 2 embeddings, got 0" (by decide)).1⟩

/-- C4 counterexample: a dispatch whose provider call fails on the first
attempt but would succeed on the second rejects its queued request, while the
spec's retry-wrapped dispatch resolves it — so the coalescer's batch call is
not wrapped in the RetryPolicy. -/
theorem processBatch_not_retried :
    (processBatch "p" "m" [⟨"t"⟩] 32
        (fun n => if n = 1 then none else some [[1]]) ⟨[], 1000, 3600000⟩ 0).2.1 =
      [Except.error "Expected 1 embeddings, got 0"] ∧
    (processBatchRetried "p" "m" [⟨"t"⟩] 32 3
        (fun n => if n = 1 then none else some [[1]]) ⟨[], 1000, 3600000⟩ 0).2.1 =
      [Except.ok [1]] ∧
    processBatch "p" "m" [⟨"t"⟩] 32
        (fun n => if n = 1 then none else some [[1]]) ⟨[], 1000, 3600000⟩ 0 ≠
      processBatchRetried "p" "m" [⟨"t"⟩] 32 3
        (fun n => if n = 1 then none else some [[1]]) ⟨[], 1000, 3600000⟩ 0 := by
  refine ⟨by decide, by decide, by decide⟩

/-- C4 amended: the coalescer's dispatch issues a single un-retried provider
call — its outcome depends only on the first attempt — and on that first
failure every removed request is rejected immediately. -/
theorem processBatch_single_call (provider model : String) (queue : List PendingRequest)
    (batchSize : Nat) (attempts : Nat → Option (List (List ℚ)))
    (cache : MemoryEmbeddingCache) (now : Int) :
    processBatch provider model queue batchSize attempts cache now =
      processBatch provider model queue batchSize (fun _ => attempts 1) cache now ∧
    (∀ e, queue ≠ [] →
      generateBatchEmbeddingsInternal ((queue.take batchSize).map (fun i => i.text))
          (attempts 1) = Except.error e →
      (processBatch provider model queue batchSize attempts cache now).2.1 =
        (queue.take batchSize).map (fun _ => Except.error e)) := by
  refine ⟨rfl, ?_⟩
  intro e hq hres
  rw [processBatch_eq provider model queue batchSize attempts cache now hq, hres]

/-- Witness for the amended C4 at a concrete first-attempt failure. -/
theorem processBatch_single_call_witness :
    (processBatch "p" "m" [⟨"t"⟩] 32
        (fun n => if n = 1 then none else some [[1]]) ⟨[], 1000, 3600000⟩ 0).2.1 =
      (([⟨"t"⟩] : List PendingRequest).take 32).map
        (fun _ => Except.error "Expected 1 embeddings, got 0") :=
  (processBatch_single_call "p" "m" [⟨"t"⟩] 32
      (fun n => if n = 1 then none else some [[1]]) ⟨[], 1000, 3600000⟩ 0).2
    "Expected 1 embeddings, got 0" (by decide) (by decide)

/-- Each inner-scan step either leaves the state unchanged or appends a joiner
whose id is neither the seed's nor already processed, accumulating its
similarity and marking it processed. -/
theorem clusterScanStep_cases (sim : List ℚ → List ℚ → ℚ) (threshold : ℚ) (item : Cand)
    (acc : List SemanticSearchResult × ℚ × List String) (other : Cand) :
    clusterScanStep sim threshold item acc other = acc ∨
    (other.memory.id ≠ item.memory.id ∧ other.memory.id ∉ acc.2.2 ∧
     clusterScanStep sim threshold item acc other =
       (acc.1 ++ [{ memory := other.memory,
                    similarity := sim item.embedding other.embedding,
                    embedding := other.embedding }],
        acc.2.1 + sim item.embedding other.embedding,
        other.memory.id :: acc.2.2)) := by
  by_cases h : other.memory.id = item.memory.id ∨ other.memory.id ∈ acc.2.2
  · left
    simp only [clusterScanStep, if_pos h]
  · have h' := not_or.mp h
    by_cases hs : threshold ≤ sim item.embedding other.embedding
    · right
      refine ⟨h'.1, h'.2, ?_⟩
      simp only [clusterScanStep, if_neg h, if_pos hs]
    · left
      simp only [clusterScanStep, if_neg h, if_neg hs]

/-- Invariants of the inner scan fold: the running total is the sum of member
similarities, member ids stay distinct and are either the seed's or processed,
the processed set only grows, new members were unprocessed non-seed records,
and the head of the cluster is preserved. -/
theorem clusterScan_fold_inv (sim : List ℚ → List ℚ → ℚ) (threshold : ℚ) (item : Cand) :
    ∀ (ms : List Cand) (cl : List SemanticSearchResult) (total : ℚ) (proc : List String),
      total = sumSims cl →
      (cl.map (fun r => r.memory.id)).Nodup →
      (∀ id ∈ cl.map (fun r => r.memory.id), id = item.memory.id ∨ id ∈ proc) →
      (ms.foldl (clusterScanStep sim threshold item) (cl, total, proc)).2.1 =
          sumSims (ms.foldl (clusterScanStep sim threshold item) (cl, total, proc)).1 ∧
      ((ms.foldl (clusterScanStep sim threshold item) (cl, total, proc)).1.map
          (fun r => r.memory.id)).Nodup ∧
      (∀ id ∈ (ms.foldl (clusterScanStep sim threshold item) (cl, total, proc)).1.map
          (fun r => r.memory.id),
        id = item.memory.id ∨
          id ∈ (ms.foldl (clusterScanStep sim threshold item) (cl, total, proc)).2.2) ∧
      (∀ id ∈ proc,
        id ∈ (ms.foldl (clusterScanStep sim threshold item) (cl, total, proc)).2.2) ∧
      (∀ id ∈ (ms.foldl (clusterScanStep sim threshold item) (cl, total, proc)).1.map
          (fun r => r.memory.id),
        id ∈ cl.map (fun r => r.memory.id) ∨ (id ∉ proc ∧ id ≠ item.memory.id)) ∧
      (∀ hd rest, cl = hd :: rest →
        ∃ rest', (ms.foldl (clusterScanStep sim threshold item) (cl, total, proc)).1 =
          hd :: rest') := by
  intro ms
  induction ms with
  | nil =>
    intro cl total proc htotal hnd hsub
    refine ⟨htotal, hnd, hsub, fun id h => h, fun id h => Or.inl h, ?_⟩
    intro hd rest hcl
    exact ⟨rest, hcl⟩
  | cons other rest ih =>
    intro cl total proc htotal hnd hsub
    simp only [List.foldl_cons]
    rcases clusterScanStep_cases sim threshold item (cl, total, proc) other with hkeep | hadd
    · rw [hkeep]
      exact ih cl total proc htotal hnd hsub
    · obtain ⟨hne, hnp, hstep⟩ := hadd
      rw [hstep]
      set newR : SemanticSearchResult :=
        { memory := other.memory,
          similarity := sim item.embedding other.embedding,
          embedding := other.embedding } with hnewR
      have hnotin : other.memory.id ∉ cl.map (fun r => r.memory.id) := by
        intro hmem
        rcases hsub _ hmem with h | h
        · exact hne h
        · exact hnp h
      have h1 : total + sim item.embedding other.embedding = sumSims (cl ++ [newR]) := by
        simp [sumSims, htotal, hnewR]
      have h2 : ((cl ++ [newR]).map (fun r => r.memory.id)).Nodup := by
        simp only [List.map_append, List.map_cons, List.map_nil]
        rw [List.nodup_append]
        refine ⟨hnd, List.nodup_singleton _, ?_⟩
        intro a ha hb
        simp only [hnewR, List.mem_singleton] at hb
        subst hb
        exact hnotin ha
      have h3 : ∀ id ∈ (cl ++ [newR]).map (fun r => r.memory.id),
          id = item.memory.id ∨ id ∈ other.memory.id :: proc := by
        intro id hid
        simp only [List.map_append, List.mem_append, List.map_cons, List.map_nil,
          List.mem_singleton] at hid
        rcases hid with hid | hid
        · rcases hsub id hid with h | h
          · exact Or.inl h
          · exact Or.inr (List.mem_cons_of_mem _ h)
        · subst hid
          exact Or.inr (List.mem_cons_self _ _)
      obtain ⟨g1, g2, g3, g4, g5, g6⟩ :=
        ih (cl ++ [newR]) (total + sim item.embedding other.embedding)
          (other.memory.id :: proc) h1 h2 h3
      refine ⟨g1, g2, g3, ?_, ?_, ?_⟩
      · intro id hid
        exact g4 id (List.mem_cons_of_mem _ hid)
      · intro id hid
        rcases g5 id hid with h | h
        · simp only [List.map_append, List.mem_append, List.map_cons, List.map_nil,
            List.mem_singleton] at h
          rcases h with h | h
          · exact Or.inl h
          · subst h
            exact Or.inr ⟨hnp, hne⟩
        · refine Or.inr ⟨fun hp => h.1 (List.mem_cons_of_mem _ hp), h.2⟩
      · intro hd rest' hcl
        subst hcl
        exact g6 hd (rest' ++ [newR]) rfl

/-- The inner scan, from its seeded initial state: total = sum of recorded
similarities, distinct member ids all marked processed (or the seed), the
processed set grows, members were unprocessed (or are the seed), and the seed
record sits at the head with similarity 1. -/
theorem clusterScan_spec (sim : List ℚ → List ℚ → ℚ) (threshold : ℚ) (item : Cand)
    (mems : List Cand) (proc : List String) :
    (clusterScan sim threshold item mems proc).2.1 =
        sumSims (clusterScan sim threshold item mems proc).1 ∧
    ((clusterScan sim threshold item mems proc).1.map (fun r => r.memory.id)).Nodup ∧
    (∀ id ∈ (clusterScan sim threshold item mems proc).1.map (fun r => r.memory.id),
      id = item.memory.id ∨ id ∈ (clusterScan sim threshold item mems proc).2.2) ∧
    (∀ id ∈ proc, id ∈ (clusterScan sim threshold item mems proc).2.2) ∧
    (∀ id ∈ (clusterScan sim threshold item mems proc).1.map (fun r => r.memory.id),
      id = item.memory.id ∨ id ∉ proc) ∧
    (∃ rest, (clusterScan sim threshold item mems proc).1 =
      { memory := item.memory, similarity := 1, embedding := item.embedding } :: rest) := by
  simp only [clusterScan]
  obtain ⟨g1, g2, g3, g4, g5, g6⟩ := clusterScan_fold_inv sim threshold item mems
    [{ memory := item.memory, similarity := 1, embedding := item.embedding }] 1 proc
    (by simp [sumSims]) (by simp) (by simp)
  refine ⟨g1, g2, g3, g4, ?_, g6 _ [] rfl⟩
  intro id hid
  rcases g5 id hid with h | h
  · simp only [List.map_cons, List.map_nil, List.mem_singleton] at h
    exact Or.inl h
  · exact Or.inr h.1

/-- Invariants of the outer fold of `clusterMemories`: emitted members are
processed, clusters are pairwise disjoint, and each kept cluster satisfies the
size, average and seed-head facts. -/
theorem clusterFold_inv (sim : List ℚ → List ℚ → ℚ) (threshold : ℚ)
    (minClusterSize : Nat) (mems : List Cand) :
    ∀ (items : List Cand) (clusters : List ClusterOut) (proc : List String),
      (∀ c ∈ clusters, ∀ id ∈ clusterIds c, id ∈ proc) →
      clusters.Pairwise (fun c₁ c₂ => ∀ id ∈ clusterIds c₁, id ∉ clusterIds c₂) →
      (∀ c ∈ clusters, minClusterSize ≤ c.cluster.length ∧
        c.avgSimilarity = sumSims c.cluster / (c.cluster.length : ℚ) ∧
        (clusterIds c).Nodup ∧
        ∃ hd rest, c.cluster = hd :: rest ∧ hd.similarity = 1) →
      (∀ c ∈ (items.foldl (clusterStep sim threshold minClusterSize mems)
          (clusters, proc)).1,
        ∀ id ∈ clusterIds c,
          id ∈ (items.foldl (clusterStep sim threshold minClusterSize mems)
            (clusters, proc)).2) ∧
      ((items.foldl (clusterStep sim threshold minClusterSize mems)
          (clusters, proc)).1.Pairwise
        (fun c₁ c₂ => ∀ id ∈ clusterIds c₁, id ∉ clusterIds c₂)) ∧
      (∀ c ∈ (items.foldl (clusterStep sim threshold minClusterSize mems)
          (clusters, proc)).1,
        minClusterSize ≤ c.cluster.length ∧
        c.avgSimilarity = sumSims c.cluster / (c.cluster.length : ℚ) ∧
        (clusterIds c).Nodup ∧
        ∃ hd rest, c.cluster = hd :: rest ∧ hd.similarity = 1) := by
  intro items
  induction items with
  | nil =>
    intro clusters proc h1 h2 h3
    exact ⟨h1, h2, h3⟩
  | cons item rest ih =>
    intro clusters proc h1 h2 h3
    simp only [List.foldl_cons]
    by_cases hmem : item.memory.id ∈ proc
    · rw [show clusterStep sim threshold minClusterSize mems (clusters, proc) item
          = (clusters, proc) from by simp [clusterStep, hmem]]
      exact ih clusters proc h1 h2 h3
    · have hstep : clusterStep sim threshold minClusterSize mems (clusters, proc) item =
          ((if minClusterSize ≤ (clusterScan sim threshold item mems proc).1.length then
              clusters ++ [{ cluster := (clusterScan sim threshold item mems proc).1,
                             avgSimilarity := (clusterScan sim threshold item mems proc).2.1 /
                               (((clusterScan sim threshold item mems proc).1.length : ℚ)) }]
            else clusters),
           item.memory.id :: (clusterScan sim threshold item mems proc).2.2) := by
        simp [clusterStep, hmem]
      rw [hstep]
      obtain ⟨s1, s2, s3, s4, s5, s6⟩ := clusterScan_spec sim threshold item mems proc
      by_cases hkeep : minClusterSize ≤ (clusterScan sim threshold item mems proc).1.length
      · rw [if_pos hkeep]
        apply ih
        · intro c hc id hid
          rcases List.mem_append.mp hc with hc | hc
          · exact List.mem_cons_of_mem _ (s4 id (h1 c hc id hid))
          · rw [List.mem_singleton] at hc
            subst hc
            rcases s3 id hid with h | h
            · exact h ▸ List.mem_cons_self _ _
            · exact List.mem_cons_of_mem _ h
        · rw [List.pairwise_append]
          refine ⟨h2, List.pairwise_singleton _ _, ?_⟩
          intro c₁ hc₁ c₂ hc₂ id hid₁ hid₂
          rw [List.mem_singleton] at hc₂
          subst hc₂
          have hidproc : id ∈ proc := h1 c₁ hc₁ id hid₁
          rcases s5 id hid₂ with h | h
          · subst h
            exact hmem hidproc
          · exact h hidproc
        · intro c hc
          rcases List.mem_append.mp hc with hc | hc
          · exact h3 c hc
          · rw [List.mem_singleton] at hc
            subst hc
            refine ⟨hkeep, by rw [s1], s2, ?_⟩
            obtain ⟨rest', hrest⟩ := s6
            exact ⟨_, rest', hrest, rfl⟩
      · rw [if_neg hkeep]
        apply ih
        · intro c hc id hid
          exact List.mem_cons_of_mem _ (s4 id (h1 c hc id hid))
        · exact h2
        · exact h3

/-- C5: `clusterMemories` returns pairwise-disjoint clusters (no record id in
two clusters), each of size ≥ minClusterSize, each with avgSimilarity the mean
of the recorded member similarities (the seed recorded as 1.0 at the head),
sorted descending by avgSimilarity. -/
theorem clusterMemories_spec (sim : List ℚ → List ℚ → ℚ) (threshold : ℚ)
    (minClusterSize : Nat) (mems : List Cand) :
    (clusterMemories sim threshold minClusterSize mems).Pairwise
      (fun c₁ c₂ => ∀ id ∈ clusterIds c₁, id ∉ clusterIds c₂) ∧
    (∀ c ∈ clusterMemories sim threshold minClusterSize mems,
      minClusterSize ≤ c.cluster.length ∧
      c.avgSimilarity = sumSims c.cluster / ((c.cluster.length : ℚ)) ∧
      (clusterIds c).Nodup ∧
      ∃ hd rest, c.cluster = hd :: rest ∧ hd.similarity = 1) ∧
    (clusterMemories sim threshold minClusterSize mems).Pairwise
      (fun a b => b.avgSimilarity ≤ a.avgSimilarity) := by
  obtain ⟨f1, f2, f3⟩ := clusterFold_inv sim threshold minClusterSize mems mems [] []
    (by intro c hc; cases hc) List.Pairwise.nil (by intro c hc; cases hc)
  simp only [clusterMemories]
  refine ⟨?_, ?_, ?_⟩
  · have hsym : ∀ {c₁ c₂ : ClusterOut}, (∀ id ∈ clusterIds c₁, id ∉ clusterIds c₂) →
        ∀ id ∈ clusterIds c₂, id ∉ clusterIds c₁ := by
      intro c₁ c₂ h id hid hin
      exact h id hin hid
    exact ((sortDesc_perm (fun c => c.avgSimilarity) _).pairwise_iff hsym).mpr f2
  · intro c hc
    exact f3 c (mem_sortDesc.mp hc)
  · exact sortDesc_sorted _ _

theorem mem_setDedup : ∀ (l seen : List String) (a : String),
    a ∈ setDedup l seen ↔ (a ∈ l ∧ a ∉ seen) := by
  intro l
  induction l with
  | nil => intro seen a; simp [setDedup]
  | cons x xs ih =>
    intro seen a
    by_cases hx : x ∈ seen
    · rw [setDedup, if_pos hx, ih]
      constructor
      · rintro ⟨h1, h2⟩
        exact ⟨List.mem_cons_of_mem _ h1, h2⟩
      · rintro ⟨h1, h2⟩
        rcases List.mem_cons.mp h1 with h | h
        · exact absurd (h ▸ hx) h2
        · exact ⟨h, h2⟩
    · rw [setDedup, if_neg hx]
      constructor
      · intro h
        rcases List.mem_cons.mp h with h | h
        · exact ⟨h ▸ List.mem_cons_self _ _, h ▸ hx⟩
        · obtain ⟨h1, h2⟩ := (ih (x :: seen) a).mp h
          exact ⟨List.mem_cons_of_mem _ h1,
            fun hs => h2 (List.mem_cons_of_mem _ hs)⟩
      · rintro ⟨h1, h2⟩
        rcases List.mem_cons.mp h1 with h | h
        · exact h ▸ List.mem_cons_self _ _
        · by_cases hax : a = x
          · exact hax ▸ List.mem_cons_self _ _
          · exact List.mem_cons_of_mem _ ((ih (x :: seen) a).mpr
              ⟨h, fun hs => (List.mem_cons.mp hs).elim hax h2⟩)

theorem nodup_setDedup : ∀ (l seen : List String), (setDedup l seen).Nodup := by
  intro l
  induction l with
  | nil => intro seen; simp [setDedup]
  | cons x xs ih =>
    intro seen
    by_cases hx : x ∈ seen
    · rw [setDedup, if_pos hx]
      exact ih seen
    · rw [setDedup, if_neg hx]
      refine List.nodup_cons.mpr ⟨?_, ih (x :: seen)⟩
      intro hmem
      exact ((mem_setDedup xs (x :: seen) x).mp hmem).2 (List.mem_cons_self _ _)

theorem mapGet_eq_none {m : List (String × ℚ)} {k : String}
    (h : k ∉ m.map (fun p => p.1)) : mapGet m k = none := by
  unfold mapGet
  cases hf : m.reverse.find? (fun p => p.1 == k) with
  | none => rfl
  | some pr =>
    exfalso
    have h1 : pr.1 = k := by
      have := List.find?_some hf
      simpa using this
    have h2 : pr ∈ m := List.mem_reverse.mp (List.mem_of_find?_eq_some hf)
    exact h (h1 ▸ List.mem_map.mpr ⟨pr, h2, rfl⟩)

theorem key_unique {m : List (String × ℚ)} (hnd : (m.map (fun p => p.1)).Nodup)
    {a b : String × ℚ} (ha : a ∈ m) (hb : b ∈ m) (hk : a.1 = b.1) : a = b := by
  induction m with
  | nil => cases ha
  | cons x xs ih =>
    rw [List.map_cons, List.nodup_cons] at hnd
    rcases List.mem_cons.mp ha with ha' | ha' <;> rcases List.mem_cons.mp hb with hb' | hb'
    · rw [ha', hb']
    · exfalso
      exact hnd.1 (List.mem_map.mpr ⟨b, hb', by rw [← hk, ha']⟩)
    · exfalso
      exact hnd.1 (List.mem_map.mpr ⟨a, ha', by rw [hk, hb']⟩)
    · exact ih hnd.2 ha' hb'

theorem mapGet_of_nodup {m : List (String × ℚ)} (hnd : (m.map (fun p => p.1)).Nodup)
    {k : String} {v : ℚ} (hmem : (k, v) ∈ m) : mapGet m k = some v := by
  unfold mapGet
  cases hf : m.reverse.find? (fun p => p.1 == k) with
  | none =>
    exfalso
    have := List.find?_eq_none.mp hf (k, v) (List.mem_reverse.mpr hmem)
    simp at this
  | some pr =>
    have h1 : pr.1 = k := by
      have := List.find?_some hf
      simpa using this
    have h2 : pr ∈ m := List.mem_reverse.mp (List.mem_of_find?_eq_some hf)
    have : pr = (k, v) := key_unique hnd h2 hmem (by rw [h1])
    rw [this]
    rfl

theorem textScoreMap_keys (l : List Mem) :
    (textScoreMap l).map (fun p => p.1) = l.map (fun r => r.id) := by
  rw [textScoreMap, List.map_map]
  have : ((fun p : String × ℚ => p.1) ∘ (fun p : Nat × Mem =>
      (p.2.id, max 0 (((l.length : ℚ) - (p.1 : ℚ)) / (l.length : ℚ))))) =
      (fun r : Mem => r.id) ∘ Prod.snd := rfl
  rw [this, ← List.map_map, List.enum_map_snd]

theorem textScoreMap_strict (l : List Mem) :
    (textScoreMap l).Pairwise (fun p q => q.2 < p.2) := by
  rw [List.pairwise_iff_getElem]
  intro i j hi hj hij
  have hlen : (textScoreMap l).length = l.length := by
    simp [textScoreMap]
  have hj' : j < l.length := hlen ▸ hj
  have hi' : i < l.length := hlen ▸ hi
  have hie : i < l.enum.length := by simpa [List.enum_length] using hi'
  have hje : j < l.enum.length := by simpa [List.enum_length] using hj'
  have hgi : (textScoreMap l)[i] =
      (l[i].id, max 0 (((l.length : ℚ) - (i : ℚ)) / (l.length : ℚ))) := by
    simp [textScoreMap]
  have hgj : (textScoreMap l)[j] =
      (l[j].id, max 0 (((l.length : ℚ) - (j : ℚ)) / (l.length : ℚ))) := by
    simp [textScoreMap]
  rw [hgi, hgj]
  have hN : (0 : ℚ) < (l.length : ℚ) := by
    have : 0 < l.length := lt_of_le_of_lt (Nat.zero_le j) hj'
    exact_mod_cast this
  have hjQ : (j : ℚ) < (l.length : ℚ) := by exact_mod_cast hj'
  have hiQ : (i : ℚ) < (j : ℚ) := by exact_mod_cast hij
  have h0j : (0 : ℚ) < ((l.length : ℚ) - (j : ℚ)) / (l.length : ℚ) :=
    div_pos (by linarith) hN
  have h0i : (0 : ℚ) < ((l.length : ℚ) - (i : ℚ)) / (l.length : ℚ) :=
    div_pos (by linarith) hN
  rw [max_eq_right (le_of_lt h0j), max_eq_right (le_of_lt h0i)]
  rw [div_lt_div_iff₀ hN hN]
  have : ((l.length : ℚ) - (j : ℚ)) < ((l.length : ℚ) - (i : ℚ)) := by linarith
  exact mul_lt_mul_of_pos_right this hN

/-- The elements passing a lower-bound filter on a strictly descending list
form its initial segment. -/
theorem filter_strict_desc_pre {l : List (String × ℚ)} (c : ℚ)
    (h : l.Pairwise (fun p q => q.2 < p.2)) :
    ∃ rest, l.filter (fun p => decide (c < p.2)) ++ rest = l := by
  induction l with
  | nil => exact ⟨[], rfl⟩
  | cons x xs ih =>
    rcases List.pairwise_cons.mp h with ⟨hx, hxs⟩
    by_cases hc : c < x.2
    · obtain ⟨rest, hrest⟩ := ih hxs
      refine ⟨rest, ?_⟩
      rw [List.filter_cons_of_pos (by simpa using hc), List.cons_append, hrest]
    · refine ⟨x :: xs, ?_⟩
      have hnil : xs.filter (fun p => decide (c < p.2)) = [] := by
        rw [List.filter_eq_nil_iff]
        intro q hq
        have hq2 : q.2 < x.2 := hx q hq
        have hxc : x.2 ≤ c := le_of_not_lt hc
        simp only [decide_eq_true_eq]
        exact not_lt.mpr (le_of_lt (lt_of_lt_of_le hq2 hxc))
      rw [List.filter_cons_of_neg (by simpa using hc), hnil, List.nil_append]

/-- A permutation between a weakly descending list and a strictly descending
list forces equality. -/
theorem eq_of_perm_sorted_strict {α : Type} (score : α → ℚ) :
    ∀ {l₂ l₁ : List α}, List.Perm l₁ l₂ →
      l₁.Pairwise (fun a b => score b ≤ score a) →
      l₂.Pairwise (fun a b => score b < score a) → l₁ = l₂ := by
  intro l₂
  induction l₂ with
  | nil =>
    intro l₁ hperm _ _
    exact hperm.eq_nil
  | cons y t₂ ih =>
    intro l₁ hperm h₁ h₂
    cases l₁ with
    | nil => exact hperm.nil_eq
    | cons x t₁ =>
      rcases List.pairwise_cons.mp h₁ with ⟨hx, ht₁⟩
      rcases List.pairwise_cons.mp h₂ with ⟨hy, ht₂⟩
      have hxy : x = y := by
        by_contra hne
        have hyx : y ∈ x :: t₁ := hperm.mem_iff.mpr (List.mem_cons_self _ _)
        have hxy' : x ∈ y :: t₂ := hperm.mem_iff.mp (List.mem_cons_self _ _)
        have hy' : y ∈ t₁ := by
          rcases List.mem_cons.mp hyx with h | h
          · exact absurd h.symm hne
          · exact h
        have hx' : x ∈ t₂ := by
          rcases List.mem_cons.mp hxy' with h | h
          · exact absurd h hne
          · exact h
        have h1 : score y ≤ score x := hx y hy'
        have h2 : score x < score y := hy x hx'
        exact absurd h1 (not_le.mpr h2)
      subst hxy
      have htperm : List.Perm t₁ t₂ := hperm.cons_inv
      rw [ih htperm ht₁ ht₂]

/-- With `semanticWeight = 0`, `textWeight = 1` and recency boosting off, a
hybrid entry's combined score is exactly its normalized lexical rank score. -/
theorem hybridEntry_combined_text (semanticResults : List SemanticSearchResult)
    (textResults : List Mem) (semMap tMap : List (String × ℚ))
    (includeEmbeddings : Bool) (now : Int) (memoryId : String) :
    (hybridEntry semanticResults textResults semMap tMap 1 0 false includeEmbeddings
        now memoryId).combinedScore = (mapGet tMap memoryId).getD 0 := by
  simp [hybridEntry]

/-- A hybrid entry built for an id drawn from either source keeps that id. -/
theorem hybridEntry_id (semanticResults : List SemanticSearchResult)
    (textResults : List Mem) (semMap tMap : List (String × ℚ))
    (textWeight semanticWeight : ℚ) (boost includeEmbeddings : Bool) (now : Int)
    (memoryId : String)
    (hid : memoryId ∈ semanticResults.map (fun r => r.memory.id) ∨
      memoryId ∈ textResults.map (fun r => r.id)) :
    (hybridEntry semanticResults textResults semMap tMap textWeight semanticWeight
        boost includeEmbeddings now memoryId).memory.id = memoryId := by
  cases hf : semanticResults.find? (fun r => r.memory.id == memoryId) with
  | some r =>
    have hr : r.memory.id = memoryId := by simpa using List.find?_some hf
    simp [hybridEntry, hf, hr]
  | none =>
    cases ht : textResults.find? (fun r => r.id == memoryId) with
    | some m =>
      have hm : m.id = memoryId := by simpa using List.find?_some ht
      simp [hybridEntry, hf, ht, hm]
    | none =>
      exfalso
      rcases hid with hid | hid
      · rcases List.mem_map.mp hid with ⟨r, hr, hre⟩
        exact absurd (by simpa using hre) (by simpa using List.find?_eq_none.mp hf r hr)
      · rcases List.mem_map.mp hid with ⟨m, hm, hme⟩
        exact absurd (by simpa using hme) (by simpa using List.find?_eq_none.mp ht m hm)

/-- The hybrid sort-and-filter pipeline, for an entry map whose combined score
is the lexical rank score: sorting the filtered union recovers exactly the
lexical candidate order restricted to scores above the floor. -/
theorem sorted_filter_pipeline (e : String → HybridSearchResult)
    (tMap : List (String × ℚ)) (allIds : List String)
    (hknd : (tMap.map (fun p => p.1)).Nodup)
    (hnda : allIds.Nodup)
    (He : ∀ id, (e id).combinedScore = (mapGet tMap id).getD 0)
    (hmemall : ∀ id, id ∈ tMap.map (fun p => p.1) → id ∈ allIds)
    (hstrictMap : tMap.Pairwise (fun p q => q.2 < p.2)) :
    sortDesc (fun r => r.combinedScore)
        ((allIds.map e).filter (fun r => decide ((1 / 10 : ℚ) < r.combinedScore))) =
      (tMap.filter (fun pr => decide ((1 / 10 : ℚ) < pr.2))).map (fun pr => e pr.1) := by
  rw [List.filter_map]
  have hfc : allIds.filter ((fun r => decide ((1 / 10 : ℚ) < r.combinedScore)) ∘ e)
      = allIds.filter (fun id => decide ((1 / 10 : ℚ) < (mapGet tMap id).getD 0)) :=
    List.filter_congr (fun id _ => by simp only [Function.comp_apply, He])
  rw [hfc]
  have hsurv_mem : ∀ id,
      id ∈ allIds.filter (fun id => decide ((1 / 10 : ℚ) < (mapGet tMap id).getD 0)) ↔
      (id ∈ tMap.map (fun p => p.1) ∧ (1 / 10 : ℚ) < (mapGet tMap id).getD 0) := by
    intro id
    rw [List.mem_filter]
    constructor
    · rintro ⟨hin, hp⟩
      rw [decide_eq_true_eq] at hp
      refine ⟨?_, hp⟩
      by_contra hnk
      rw [mapGet_eq_none hnk] at hp
      norm_num at hp
    · rintro ⟨hk, hp⟩
      exact ⟨hmemall id hk, by simpa using hp⟩
  have hT_mem : ∀ id,
      id ∈ (tMap.filter (fun pr => decide ((1 / 10 : ℚ) < pr.2))).map (fun p => p.1) ↔
      (id ∈ tMap.map (fun p => p.1) ∧ (1 / 10 : ℚ) < (mapGet tMap id).getD 0) := by
    intro id
    constructor
    · intro h
      rcases List.mem_map.mp h with ⟨pr, hpr, hpe⟩
      rcases List.mem_filter.mp hpr with ⟨hprm, hpq⟩
      subst hpe
      refine ⟨List.mem_map.mpr ⟨pr, hprm, rfl⟩, ?_⟩
      rw [mapGet_of_nodup hknd hprm]
      simpa using hpq
    · rintro ⟨hk, hp⟩
      rcases List.mem_map.mp hk with ⟨pr, hprm, hpe⟩
      subst hpe
      rw [mapGet_of_nodup hknd hprm] at hp
      exact List.mem_map.mpr ⟨pr, List.mem_filter.mpr ⟨hprm, by simpa using hp⟩, rfl⟩
  have hndsurv : (allIds.filter
      (fun id => decide ((1 / 10 : ℚ) < (mapGet tMap id).getD 0))).Nodup :=
    hnda.filter _
  have hndT : ((tMap.filter (fun pr => decide ((1 / 10 : ℚ) < pr.2))).map
      (fun p => p.1)).Nodup :=
    ((List.filter_sublist _).map _).nodup hknd
  have hpermIds := (List.perm_ext_iff_of_nodup hndsurv hndT).mpr
    (fun id => (hsurv_mem id).trans (hT_mem id).symm)
  have hcomp : (tMap.filter (fun pr => decide ((1 / 10 : ℚ) < pr.2))).map
      (e ∘ fun p => p.1) =
      (tMap.filter (fun pr => decide ((1 / 10 : ℚ) < pr.2))).map (fun pr => e pr.1) := rfl
  have hperm : List.Perm
      ((allIds.filter (fun id => decide ((1 / 10 : ℚ) < (mapGet tMap id).getD 0))).map e)
      ((tMap.filter (fun pr => decide ((1 / 10 : ℚ) < pr.2))).map (fun pr => e pr.1)) := by
    have h := hpermIds.map e
    rwa [List.map_map, hcomp] at h
  have hstrict : ((tMap.filter (fun pr => decide ((1 / 10 : ℚ) < pr.2))).map
      (fun pr => e pr.1)).Pairwise (fun a b => b.combinedScore < a.combinedScore) := by
    rw [List.pairwise_map]
    refine List.Pairwise.imp_of_mem ?_ (hstrictMap.filter _)
    intro pr qr hpr hqr hlt
    have hprm : pr ∈ tMap := List.mem_of_mem_filter hpr
    have hqrm : qr ∈ tMap := List.mem_of_mem_filter hqr
    rw [He, He, mapGet_of_nodup hknd hprm, mapGet_of_nodup hknd hqrm]
    simpa using hlt
  exact eq_of_perm_sorted_strict (fun r => r.combinedScore)
    ((sortDesc_perm _ _).trans hperm) (sortDesc_sorted _ _) hstrict

/-- C6: with `semanticWeight = 0`, `textWeight = 1` and recency boosting off,
`hybridSearch` returns ids in exactly the lexical ranking order: its id list is
the lexical candidate list scored by rank, floored at combined score 0.1 and
truncated to `limit` — in particular an initial segment of the lexical ids. -/
theorem hybridSearch_text_ranking (sim : List ℚ → List ℚ → ℚ) (queryEmbedding : List ℚ)
    (candidates : List Cand) (textResults : List Mem) (limit : Nat)
    (minSimilarity : ℚ) (category : Option String) (includeEmbeddings : Bool) (now : Int)
    (hnd : (textResults.map (fun r => r.id)).Nodup) :
    (hybridSearch sim queryEmbedding candidates textResults limit minSimilarity category
        1 0 false includeEmbeddings now).map (fun r => r.memory.id) =
      (((textScoreMap textResults).filter (fun pr => decide ((1 / 10 : ℚ) < pr.2))).map
        (fun pr => pr.1)).take limit ∧
    (∃ t, (hybridSearch sim queryEmbedding candidates textResults limit minSimilarity
        category 1 0 false includeEmbeddings now).map (fun r => r.memory.id) ++ t =
      textResults.map (fun r => r.id)) := by
  have hknd : ((textScoreMap textResults).map (fun p => p.1)).Nodup := by
    rw [textScoreMap_keys]
    exact hnd
  have hpipe := sorted_filter_pipeline
    (hybridEntry (searchSimilar sim queryEmbedding candidates (limit * 2)
        (minSimilarity * (4 / 5)) category includeEmbeddings) textResults
      ((searchSimilar sim queryEmbedding candidates (limit * 2)
        (minSimilarity * (4 / 5)) category includeEmbeddings).map
        (fun r => (r.memory.id, r.similarity)))
      (textScoreMap textResults) 1 0 false includeEmbeddings now)
    (textScoreMap textResults)
    (setDedup ((searchSimilar sim queryEmbedding candidates (limit * 2)
        (minSimilarity * (4 / 5)) category includeEmbeddings).map (fun r => r.memory.id)
      ++ textResults.map (fun r => r.id)) [])
    hknd
    (nodup_setDedup _ _)
    (fun id => hybridEntry_combined_text _ _ _ _ _ _ id)
    (fun id hid => (mem_setDedup _ _ id).mpr
      ⟨List.mem_append_right _ (by rwa [textScoreMap_keys] at hid), List.not_mem_nil id⟩)
    (textScoreMap_strict textResults)
  have hunfold : hybridSearch sim queryEmbedding candidates textResults limit minSimilarity
      category 1 0 false includeEmbeddings now =
      (((textScoreMap textResults).filter (fun pr => decide ((1 / 10 : ℚ) < pr.2))).map
        (fun pr => hybridEntry (searchSimilar sim queryEmbedding candidates (limit * 2)
            (minSimilarity * (4 / 5)) category includeEmbeddings) textResults
          ((searchSimilar sim queryEmbedding candidates (limit * 2)
            (minSimilarity * (4 / 5)) category includeEmbeddings).map
            (fun r => (r.memory.id, r.similarity)))
          (textScoreMap textResults) 1 0 false includeEmbeddings now pr.1)).take limit := by
    rw [← hpipe]
    rfl
  have hids : (hybridSearch sim queryEmbedding candidates textResults limit minSimilarity
      category 1 0 false includeEmbeddings now).map (fun r => r.memory.id) =
      (((textScoreMap textResults).filter (fun pr => decide ((1 / 10 : ℚ) < pr.2))).map
        (fun pr => pr.1)).take limit := by
    rw [hunfold, ← List.map_take, List.map_map, ← List.map_take]
    apply List.map_congr_left
    intro pr hpr
    have hprm : pr ∈ textScoreMap textResults :=
      List.mem_of_mem_filter (List.mem_of_mem_take hpr)
    have hptext : pr.1 ∈ textResults.map (fun r => r.id) := by
      rw [← textScoreMap_keys]
      exact List.mem_map.mpr ⟨pr, hprm, rfl⟩
    simp only [Function.comp_apply]
    exact hybridEntry_id _ _ _ _ _ _ _ _ _ _ (Or.inr hptext)
  refine ⟨hids, ?_⟩
  obtain ⟨rest, hrest⟩ := filter_strict_desc_pre (1 / 10) (textScoreMap_strict textResults)
  refine ⟨((((textScoreMap textResults).filter
      (fun pr => decide ((1 / 10 : ℚ) < pr.2))).map (fun pr => pr.1)).drop limit)
    ++ rest.map (fun p => p.1), ?_⟩
  rw [hids, ← List.append_assoc, List.take_append_drop, ← List.map_append, hrest,
    textScoreMap_keys]

/-- Witness for C6 at two concrete lexical candidates with distinct ids. -/
theorem hybridSearch_text_ranking_witness :
    (hybridSearch (fun _ _ => 0) [] [] [⟨"a", "c", 0⟩, ⟨"b", "c", 0⟩] 10 (1 / 2) none
        1 0 false false 0).map (fun r => r.memory.id) =
      (((textScoreMap [⟨"a", "c", 0⟩, ⟨"b", "c", 0⟩]).filter
        (fun pr => decide ((1 / 10 : ℚ) < pr.2))).map (fun pr => pr.1)).take 10 ∧
    (∃ t, (hybridSearch (fun _ _ => 0) [] [] [⟨"a", "c", 0⟩, ⟨"b", "c", 0⟩] 10 (1 / 2)
        none 1 0 false false 0).map (fun r => r.memory.id) ++ t =
      ([⟨"a", "c", 0⟩, ⟨"b", "c", 0⟩] : List Mem).map (fun r => r.id)) :=
  hybridSearch_text_ranking (fun _ _ => 0) [] [] [⟨"a", "c", 0⟩, ⟨"b", "c", 0⟩] 10
    (1 / 2) none false 0 (by decide)
